import Mathlib

/-!
Verification of the procedural city generation and layout engine
(CityScene.tsx): seeded RNG, star-to-height scale functions, spiral grid
layout, window-tile synthesis, road network, label rendering, and the
rise-in animation state machine.

Modelling conventions for the JavaScript source:
* 32-bit integer values are carried as their unsigned representative, a
  natural number below 2^32; ToInt32 is recovered by toI32.
* The JS expression h = (h ^ (h >>> 16)) * 0x45d9f3b multiplies WITHOUT
  Math.imul, so the product is an IEEE-754 double. Integer products up to
  about 2^58 are rounded to 53 significant bits; fl64 implements that
  round-to-nearest-even rounding exactly on integers of this range.
* JS floating point arithmetic whose intermediate values are exactly
  representable is modelled in the rationals; values that are irrational in
  exact arithmetic (square roots, base-10 logarithms of the height formula)
  are modelled in the reals.
-/

namespace FireCity

/-! ### Seeded RNG (function seededRng in CityScene.tsx) -/

/-- One step of the Java-style string hash in the seed loop:
h = (Math.imul(31, h) + seed.charCodeAt(i)) | 0, on unsigned representatives. -/
def jsHashStep (h c : ℕ) : ℕ := (31 * h + c) % 4294967296

/-- The 32-bit accumulator obtained by folding the seed character codes. -/
def hashSeed (seed : List ℕ) : ℕ := seed.foldl jsHashStep 0

/-- Signed 32-bit reading of an unsigned representative (ToInt32). -/
def toI32 (u : ℕ) : ℤ := if u < 2147483648 then (u : ℤ) else (u : ℤ) - 4294967296

/-- The xor-shift h ^ (h >>> 16) on unsigned representatives. -/
def xorShift16 (u : ℕ) : ℕ := Nat.xor u (u / 65536)

/-- Number of binary digits of a natural number below 2^64 (0 for 0):
a structural helper standing in for log2 n + 1. -/
def bitLenAux : ℕ → ℕ → ℕ
  | 0, _ => 0
  | fuel + 1, n => if n = 0 then 0 else bitLenAux fuel (n / 2) + 1

def bitLen (n : ℕ) : ℕ := bitLenAux 64 n

/-- Round an integer to the nearest IEEE-754 double (53-bit significand,
round to nearest, ties to even). Exact for every integer of magnitude
below 2^64, hence for all products arising in the generator (they stay
below 2^58). -/
def fl64 (p : ℤ) : ℤ :=
  let n := p.natAbs
  if n < 9007199254740992 then p
  else
    let sh := bitLen n - 53
    let q := n / 2 ^ sh
    let r := n % 2 ^ sh
    let half := 2 ^ (sh - 1)
    let q2 := if half < r ∨ (r = half ∧ q % 2 = 1) then q + 1 else q
    p.sign * (q2 * 2 ^ sh : ℕ)

/-- One line h = (h ^ (h >>> 16)) * 0x45d9f3b of the generator body: the
xor-shift is evaluated on the 32-bit reading of the state, the product is
rounded to a double, and the next 32-bit reading wraps it modulo 2^32. -/
def mixRound (u : ℕ) : ℕ :=
  (fl64 (toI32 (xorShift16 u) * 73244475) % 4294967296).toNat

/-- The full state transition of one generator draw: two multiply rounds
followed by a final xor-shift (the value returned is the new state). -/
def nextState (u : ℕ) : ℕ := xorShift16 (mixRound (mixRound u))

/-- One draw: the JS return value (h >>> 0) / 0xffffffff together with the
state the closure retains for the next draw. -/
def rngDraw (u : ℕ) : ℚ × ℕ :=
  let u1 := nextState u
  ((u1 : ℚ) / 4294967295, u1)

/-- Value of the n-th draw (0-indexed) of the generator seeded with the
given character codes. -/
def rngValue (seed : List ℕ) (n : ℕ) : ℚ :=
  ((nextState^[n + 1] (hashSeed seed) : ℕ) : ℚ) / 4294967295

/-- Character codes of a string (UTF-16 units of the JS string; identical
to the code points for the basic-plane names that occur here). -/
def codeUnits (s : String) : List ℕ := s.data.map Char.toNat

/-! ### Scale functions (starsToHeight, starsToFloors) -/

/-- Piecewise star-count to height map of the source. Math.pow(x, 0.5) is
the real square root and Math.log10 the real base-10 logarithm. -/
noncomputable def starsToHeight (stars : ℕ) : ℝ :=
  if stars = 0 then 8
  else if stars ≤ 5 then 8 + stars * 4
  else if stars ≤ 50 then 28 + ((stars : ℝ) - 5) * 2
  else if stars ≤ 500 then 118 + ((stars : ℝ) - 50) * 0.5
  else if stars ≤ 5000 then 343 + Real.sqrt ((stars : ℝ) - 500) * 3
  else 450 + Real.logb 10 ((stars : ℝ) / 5000) * 100

/-- Math.max(1, Math.round(starsToHeight(stars) / 6)); Math.round is
floor(x + 1/2), which is exactly the Mathlib round. -/
noncomputable def starsToFloors (stars : ℕ) : ℤ :=
  max 1 (round (starsToHeight stars / 6))

/-! ### Spiral coordinates (spiralCoord) -/

/-- Loop state of spiralCoord: position, direction, and the three step
counters of the source. -/
structure SpiralState where
  x : ℤ
  z : ℤ
  dx : ℤ
  dz : ℤ
  steps : ℕ
  stepsTaken : ℕ
  turns : ℕ
  deriving DecidableEq, Repr

def spiralInit : SpiralState :=
  { x := 0, z := 0, dx := 1, dz := 0, steps := 1, stepsTaken := 0, turns := 0 }

/-- One iteration of the spiralCoord loop body: advance, then on leg
completion rotate the direction and, after every second turn, lengthen
the leg. -/
def spiralStep (s : SpiralState) : SpiralState :=
  let x := s.x + s.dx
  let z := s.z + s.dz
  let st := s.stepsTaken + 1
  if st = s.steps then
    { x := x, z := z, dx := -s.dz, dz := s.dx,
      steps := if (s.turns + 1) % 2 = 0 then s.steps + 1 else s.steps,
      stepsTaken := 0, turns := s.turns + 1 }
  else
    { x := x, z := z, dx := s.dx, dz := s.dz,
      steps := s.steps, stepsTaken := st, turns := s.turns }

/-- Grid cell of the index-th building: the source walks the loop index
times from the origin (the index = 0 early return agrees with zero
iterations). -/
def spiralCoord (index : ℕ) : ℤ × ℤ :=
  if index = 0 then (0, 0)
  else
    let s := spiralStep^[index] spiralInit
    (s.x, s.z)

/-! ### City layout (layoutCity) -/

/-- Externally supplied repository record. -/
structure Repo where
  repo_name : String
  repo_stars : ℕ
  repo_description : String
  deriving DecidableEq, Repr

/-- Derived per-building record. Heights are real (the scale function is
irrational in general); the grid-derived coordinates and the footprint
jitter are exact rationals. -/
structure BuildingData where
  repo : Repo
  x : ℚ
  z : ℚ
  width : ℚ
  depth : ℚ
  height : ℝ
  floors : ℤ

def CELL : ℚ := 50
def STREET : ℚ := 30

/-- Stable descending insertion for the ECMAScript sort with comparator
(a, b) => b.repo_stars - a.repo_stars: an element is placed before the
first strictly smaller star count, so equal star counts keep their
original relative order, exactly the (mandatory stable) JS sort result. -/
def insertDesc (r : Repo) : List Repo → List Repo
  | [] => [r]
  | x :: xs => if x.repo_stars ≤ r.repo_stars then r :: x :: xs
               else x :: insertDesc r xs

/-- Stable sort by descending star count, the result of
the spread-copy sort in layoutCity. -/
def sortByStarsDesc : List Repo → List Repo
  | [] => []
  | x :: xs => insertDesc x (sortByStarsDesc xs)

/-- The building built for a repository placed at sorted position i: a
fresh generator seeded by the repository name supplies width and depth
(first and second draw), the star count supplies height and floors, the
index supplies the spiral cell. -/
noncomputable def mkBuilding (repo : Repo) (i : ℕ) : BuildingData :=
  let u0 := hashSeed (codeUnits repo.repo_name)
  let d1 := rngDraw u0
  let d2 := rngDraw d1.2
  let c := spiralCoord i
  { repo := repo
    x := (c.1 : ℚ) * (CELL + STREET)
    z := (c.2 : ℚ) * (CELL + STREET)
    width := 16 + d1.1 * 12
    depth := 14 + d2.1 * 10
    height := starsToHeight repo.repo_stars
    floors := starsToFloors repo.repo_stars }

/-- Map with the running index of the sorted list, as in sorted.map. -/
noncomputable def layoutAux : List Repo → ℕ → List BuildingData
  | [], _ => []
  | r :: rs, i => mkBuilding r i :: layoutAux rs (i + 1)

/-- The layoutCity function: stable descending sort on a copy, then one
building per repository in sorted order. -/
noncomputable def layoutCity (repos : List Repo) : List BuildingData :=
  layoutAux (sortByStarsDesc repos) 0

/-! ### Mutation model of layoutCity for the frame condition: the source
evaluates [...repos].sort(cmp), i.e. allocates a copy of the input array
and sorts the copy in place. The heap is a list of arrays addressed by
index; layoutCityHeap performs exactly those two heap operations. -/

abbrev Heap : Type := List (List Repo)

/-- Allocate a new array holding the given elements; returns its handle. -/
def heapAlloc (H : Heap) (a : List Repo) : Heap × ℕ :=
  (H ++ [a], H.length)

/-- Read the array at a handle (empty array for a dangling handle). -/
def heapGet (H : Heap) (h : ℕ) : List Repo := (H.get? h).getD []

/-- Overwrite the array at a handle (the in-place sort). -/
def heapSet (H : Heap) (h : ℕ) (a : List Repo) : Heap := H.set h a

/-- Heap-level layoutCity: copy the input array to a fresh handle, sort
that copy in place, and lay out the sorted copy. Returns the final heap
together with the produced buildings. -/
noncomputable def layoutCityHeap (H : Heap) (h : ℕ) : Heap × List BuildingData :=
  let input := heapGet H h
  let alloc := heapAlloc H input
  let H2 := heapSet alloc.1 alloc.2 (sortByStarsDesc (heapGet alloc.1 alloc.2))
  (H2, layoutAux (heapGet H2 alloc.2) 0)

/-! ### Label texture (createLabelTexture) -/

/-- Text actually drawn for the repository name line:
name.length > 24 ? name.slice(0, 22) + ellipsis : name, on the UTF-16
units of the name. -/
def displayName (name : List Char) : List Char :=
  if 24 < name.length then name.take 22 ++ ['…'] else name

/-- The two text draw calls of createLabelTexture: an optional star line
(only when stars > 0) and the name line. -/
structure LabelSpec where
  starText : Option (List Char)
  nameText : List Char
  deriving DecidableEq, Repr

def createLabelSpec (name : List Char) (stars : ℕ) : LabelSpec :=
  { starText := if 0 < stars then some (("★ ".data) ++ (toString stars).data) else none
    nameText := displayName name }

/-! ### Road network (component Roads) -/

/-- Orientation tag of a segment: rotY = 0 (east-west) or rotY = pi/2
(north-south) in the source. -/
inductive RoadDir
  | ew
  | ns
  deriving DecidableEq, Repr

structure Segment where
  x : ℚ
  z : ℚ
  length : ℚ
  dir : RoadDir
  deriving DecidableEq, Repr

/-- Grid cell recovered from world coordinates,
Math.round(b.x / (CELL + STREET)); Math.round is floor(x + 1/2). -/
def cellOf (b : BuildingData) : ℤ × ℤ :=
  (round (b.x / (CELL + STREET)), round (b.z / (CELL + STREET)))

/-- Lookup in the gridPositions map keyed by the cell string: Map.set
overwrites, so the last building with a given cell wins. -/
def gridLookup (bs : List BuildingData) (c : ℤ × ℤ) : Option BuildingData :=
  (bs.filter (fun b => decide (cellOf b = c))).getLast?

/-- Adjacency keys of the visited set, modelling the strings
gx,gz-gx+1,gz and gx,gz-gx,gz+1 (the string encoding is injective). -/
abbrev RoadKey : Type := (ℤ × ℤ) × (ℤ × ℤ)

/-- The per-building body of the segment loop: check the east then the
north neighbour, each time skipping keys already visited and emitting one
segment spanning the full cell pitch at the midpoint of the two buildings. -/
def roadAux (all : List BuildingData) :
    List BuildingData → List RoadKey → List Segment
  | [], _ => []
  | b :: rest, visited =>
    let g := cellOf b
    let rightKey : RoadKey := (g, (g.1 + 1, g.2))
    let stepE : List Segment × List RoadKey :=
      if rightKey ∈ visited then ([], visited)
      else
        match gridLookup all (g.1 + 1, g.2) with
        | some nb =>
            ([{ x := (b.x + nb.x) / 2, z := b.z,
                length := CELL + STREET, dir := RoadDir.ew }],
             rightKey :: visited)
        | none => ([], visited)
    let fwdKey : RoadKey := (g, (g.1, g.2 + 1))
    let stepN : List Segment × List RoadKey :=
      if fwdKey ∈ stepE.2 then ([], stepE.2)
      else
        match gridLookup all (g.1, g.2 + 1) with
        | some nb =>
            ([{ x := b.x, z := (b.z + nb.z) / 2,
                length := CELL + STREET, dir := RoadDir.ns }],
             fwdKey :: stepE.2)
        | none => ([], stepE.2)
    stepE.1 ++ stepN.1 ++ roadAux all rest stepN.2

/-- All road segments emitted by the Roads component (with its early
return for fewer than two buildings). -/
def roadSegments (bs : List BuildingData) : List Segment :=
  if bs.length < 2 then [] else roadAux bs bs []

/-! ### Rise-in animation (the first useFrame callback of Building) -/

structure RiseState where
  scaleY : ℝ
  posY : ℝ
  done : Bool

/-- One tick of the rise animation for a building of the given height at
the given sorted index, reading the shared global progress: settled
buildings return untouched; once global reaches 1 the building snaps to
scale 1 and position height/2 and marks itself done; otherwise the eased
local progress drives scale and position. -/
noncomputable def riseTick (height : ℝ) (index : ℕ) (s : RiseState) (global : ℚ) :
    RiseState :=
  if s.done then s
  else if 1 ≤ global then { scaleY := 1, posY := height / 2, done := true }
  else
    let delay : ℚ := index * (4 / 1000)
    let lcl : ℚ := max 0 (min 1 ((global - delay) / max (5 / 100) (1 - delay)))
    let eased : ℚ := 1 - (1 - lcl) ^ 3
    let sc : ℚ := 1 / 1000 + eased * (999 / 1000)
    { scaleY := (sc : ℝ), posY := height * (sc : ℝ) / 2, done := false }

/-- A whole run of rise ticks with the successive global progress values. -/
noncomputable def riseRun (height : ℝ) (index : ℕ) (s : RiseState) (gs : List ℚ) :
    RiseState :=
  gs.foldl (riseTick height index) s

/-! ### Window tile synthesis (createWindowTile) -/

def TILE_ROWS : ℕ := 4

def WINDOW_LIT_COLORS : List String :=
  ["#ffcc44", "#ffdd66", "#ffe088", "#44bbff", "#66ddff", "#88eeff"]

/-- Palette extended by the brand colors, each appended twice. -/
def litColorsOf (brandColors : List String) : List String :=
  WINDOW_LIT_COLORS ++ brandColors.flatMap (fun bc => [bc, bc])

inductive WindowCell
  | lit (colorIdx : ℕ)
  | unlit
  deriving DecidableEq, Repr

section
open Classical in
/-- One window cell: draw a threshold value r; a lit cell draws one more
value to pick the palette index, an unlit cell draws (and discards) one
value. Returns the threshold draw, the cell, and the new generator state. -/
noncomputable def cellStep (litPct : ℝ) (ncolors : ℕ) (u : ℕ) :
    ℚ × WindowCell × ℕ :=
  let r := rngDraw u
  if (r.1 : ℝ) < litPct then
    let c := rngDraw r.2
    (r.1, WindowCell.lit (Int.toNat ⌊c.1 * ncolors⌋), c.2)
  else
    let d := rngDraw r.2
    (r.1, WindowCell.unlit, d.2)
end

/-- Generate the given number of window cells in loop order, threading the
generator state. -/
noncomputable def tileAux (litPct : ℝ) (ncolors : ℕ) :
    ℕ → ℕ → List (ℚ × WindowCell) × ℕ
  | 0, u => ([], u)
  | n + 1, u =>
    let s := cellStep litPct ncolors u
    let rest := tileAux litPct ncolors n s.2.2
    ((s.1, s.2.1) :: rest.1, rest.2)

/-- The TILE_ROWS x windowsX window cells of one tile, with the threshold
value each cell read, for a generator seeded by the given seed string. -/
noncomputable def createWindowTile (windowsX : ℕ) (litPct : ℝ) (seed : List ℕ)
    (brandColors : List String) : List (ℚ × WindowCell) :=
  (tileAux litPct (litColorsOf brandColors).length (TILE_ROWS * windowsX)
    (hashSeed seed)).1

/-! ## Theorems -/

/-! ### C9: label truncation -/

/-- C9 (counterexample): for the 25-character name abcdefghijklmnopqrstuvwxy
the rendered label is NOT the name truncated to 24 characters with an
ellipsis appended: the source keeps only the first 22 characters. -/
theorem label_c9_counterexample :
    24 < ("abcdefghijklmnopqrstuvwxy".data).length ∧
    (createLabelSpec ("abcdefghijklmnopqrstuvwxy".data) 3).nameText ≠
      ("abcdefghijklmnopqrstuvwxy".data).take 24 ++ ['…'] := by
  refine ⟨by decide, ?_⟩
  decide

/-- C9 (amended): the label equals the name when the name has at most 24
characters; otherwise it is the first 22 characters of the name with an
ellipsis appended, hence exactly 23 characters long. -/
theorem label_c9_truncation (name : List Char) (stars : ℕ) :
    (name.length ≤ 24 → (createLabelSpec name stars).nameText = name) ∧
    (24 < name.length →
      (createLabelSpec name stars).nameText = name.take 22 ++ ['…'] ∧
      (createLabelSpec name stars).nameText.length = 23) := by
  constructor
  · intro h
    simp [createLabelSpec, displayName, Nat.not_lt.mpr h]
  · intro h
    have h1 : (createLabelSpec name stars).nameText = name.take 22 ++ ['…'] := by
      simp [createLabelSpec, displayName, h]
    refine ⟨h1, ?_⟩
    rw [h1]
    simp [List.length_take]
    omega

/-- C9 (witness): the amended statement evaluated on a concrete
25-character name. -/
theorem label_c9_witness :
    24 < ("abcdefghijklmnopqrstuvwxy".data).length ∧
    ((createLabelSpec ("abcdefghijklmnopqrstuvwxy".data) 3).nameText =
      ("abcdefghijklmnopqrstuvwxy".data).take 22 ++ ['…'] ∧
      (createLabelSpec ("abcdefghijklmnopqrstuvwxy".data) 3).nameText.length = 23) :=
  ⟨by decide, (label_c9_truncation ("abcdefghijklmnopqrstuvwxy".data) 3).2 (by decide)⟩

/-! ### C10: layoutCity does not mutate its input -/

/-- C10: on the heap model of the source (copy the input array, sort the
copy in place), the input array is unchanged after layoutCity, and the
buildings produced are those of the pure function on the original input. -/
theorem layout_no_mutation_c10 (H : Heap) (h : ℕ) (hh : h < H.length) :
    heapGet (layoutCityHeap H h).1 h = heapGet H h ∧
    (layoutCityHeap H h).2 = layoutCity (heapGet H h) := by
  have hne : H.length ≠ h := by omega
  have hget : heapGet (H ++ [heapGet H h]) H.length = heapGet H h := by
    unfold heapGet
    rw [List.get?_append_right (le_refl _)]
    simp
  constructor
  · show heapGet ((H ++ [heapGet H h]).set H.length _) h = heapGet H h
    unfold heapGet
    rw [List.get?_set_ne _ _ hne, List.get?_append hh]
  · show layoutAux (heapGet ((H ++ [heapGet H h]).set H.length
      (sortByStarsDesc (heapGet (H ++ [heapGet H h]) H.length))) H.length) 0 = _
    rw [hget]
    unfold heapGet
    rw [List.get?_set_eq_of_lt]
    · rfl
    · simp

/-- C10 (witness): the frame condition on a concrete one-array heap. -/
theorem layout_no_mutation_c10_witness :
    0 < ([[Repo.mk "a" 0 ""]] : Heap).length ∧
    (heapGet (layoutCityHeap [[Repo.mk "a" 0 ""]] 0).1 0 =
        heapGet [[Repo.mk "a" 0 ""]] 0 ∧
      (layoutCityHeap [[Repo.mk "a" 0 ""]] 0).2 =
        layoutCity (heapGet [[Repo.mk "a" 0 ""]] 0)) :=
  ⟨by decide, layout_no_mutation_c10 [[Repo.mk "a" 0 ""]] 0 (by decide)⟩

/-! ### C5: generator draw alignment in window tiles -/

/-- The threshold draw of a cell is the first draw from the entry state,
in both branches. -/
theorem cellStep_fst (p : ℝ) (nc u : ℕ) : (cellStep p nc u).1 = (rngDraw u).1 := by
  simp only [cellStep]
  split <;> rfl

/-- Both branches of a window cell consume exactly two draws. -/
theorem cellStep_state (p : ℝ) (nc u : ℕ) :
    (cellStep p nc u).2.2 = nextState (nextState u) := by
  simp only [cellStep]
  split <;> rfl

/-- Threshold draws and final state of a tile run do not depend on the lit
probability or the palette size. -/
theorem tileAux_threshold_eq (p1 p2 : ℝ) (nc1 nc2 : ℕ) : ∀ n u,
    (tileAux p1 nc1 n u).1.map Prod.fst = (tileAux p2 nc2 n u).1.map Prod.fst ∧
    (tileAux p1 nc1 n u).2 = (tileAux p2 nc2 n u).2 := by
  intro n
  induction n with
  | zero => intro u; exact ⟨rfl, rfl⟩
  | succ n ih =>
    intro u
    have hs : (cellStep p1 nc1 u).2.2 = (cellStep p2 nc2 u).2.2 := by
      rw [cellStep_state, cellStep_state]
    constructor
    · show (cellStep p1 nc1 u).1 :: (tileAux p1 nc1 n (cellStep p1 nc1 u).2.2).1.map Prod.fst
        = (cellStep p2 nc2 u).1 :: (tileAux p2 nc2 n (cellStep p2 nc2 u).2.2).1.map Prod.fst
      rw [cellStep_fst, cellStep_fst, hs, (ih _).1]
    · show (tileAux p1 nc1 n (cellStep p1 nc1 u).2.2).2
        = (tileAux p2 nc2 n (cellStep p2 nc2 u).2.2).2
      rw [hs, (ih _).2]

/-- C5: every window cell consumes exactly two generator draws whether it
comes out lit or unlit, and consequently two tile runs with the same seed
but different lit probabilities (and palettes) read the same threshold
value at every cell position. -/
theorem window_draw_alignment_c5 :
    (∀ (p : ℝ) (nc u : ℕ), (cellStep p nc u).2.2 = nextState (nextState u)) ∧
    (∀ (wx : ℕ) (p1 p2 : ℝ) (seed : List ℕ) (brand1 brand2 : List String) (n : ℕ),
      ((createWindowTile wx p1 seed brand1).map Prod.fst).get? n =
        ((createWindowTile wx p2 seed brand2).map Prod.fst).get? n) := by
  refine ⟨cellStep_state, ?_⟩
  intro wx p1 p2 seed brand1 brand2 n
  unfold createWindowTile
  rw [(tileAux_threshold_eq p1 p2 _ _ _ _).1]

/-! ### C6: rise terminality -/

/-- Ticking a settled building is the identity. -/
theorem riseTick_done (height : ℝ) (index : ℕ) (s : RiseState) (g : ℚ)
    (hd : s.done = true) : riseTick height index s g = s := by
  unfold riseTick
  rw [if_pos hd]

/-- Running any tick sequence from a settled building is the identity. -/
theorem riseRun_done (height : ℝ) (index : ℕ) (s : RiseState) (gs : List ℚ)
    (hd : s.done = true) : riseRun height index s gs = s := by
  induction gs with
  | nil => rfl
  | cons g gs ih =>
    show riseRun height index (riseTick height index s g) gs = s
    rw [riseTick_done height index s g hd, ih]

/-- Any state reached by ticks from an unsettled state satisfies: if it is
settled, its scale is exactly 1 and its position exactly height/2. -/
theorem riseTick_good (height : ℝ) (index : ℕ) (s : RiseState) (g : ℚ)
    (hG : s.done = true → s.scaleY = 1 ∧ s.posY = height / 2) :
    (riseTick height index s g).done = true →
      (riseTick height index s g).scaleY = 1 ∧
      (riseTick height index s g).posY = height / 2 := by
  unfold riseTick
  by_cases hd : s.done
  · rw [if_pos hd]; exact hG
  · rw [if_neg hd]
    by_cases hg : (1 : ℚ) ≤ g
    · rw [if_pos hg]; intro _; exact ⟨rfl, rfl⟩
    · rw [if_neg hg]; intro hcontra; exact absurd hcontra (by simp)

/-- Goodness is preserved along any run. -/
theorem riseRun_good (height : ℝ) (index : ℕ) (s : RiseState) (gs : List ℚ)
    (hG : s.done = true → s.scaleY = 1 ∧ s.posY = height / 2) :
    (riseRun height index s gs).done = true →
      (riseRun height index s gs).scaleY = 1 ∧
      (riseRun height index s gs).posY = height / 2 := by
  induction gs generalizing s with
  | nil => exact hG
  | cons g gs ih =>
    show (riseRun height index (riseTick height index s g) gs).done = true → _
    exact ih _ (riseTick_good height index s g hG)

/-- C6: starting from any unsettled state, as soon as some tick observes a
global progress of at least 1, the building's vertical scale is exactly 1
and its vertical position exactly height/2, it is marked settled, and no
subsequent tick changes anything again. -/
theorem rise_terminality_c6 (height : ℝ) (index : ℕ) (s : RiseState)
    (gs gs' : List ℚ) (g : ℚ) (hg : (1 : ℚ) ≤ g) (hs : s.done = false) :
    (riseRun height index s (gs ++ g :: gs')).scaleY = 1 ∧
    (riseRun height index s (gs ++ g :: gs')).posY = height / 2 ∧
    (riseRun height index s (gs ++ g :: gs')).done = true ∧
    riseRun height index s (gs ++ g :: gs') =
      riseTick height index (riseRun height index s gs) g := by
  have hsplit : riseRun height index s (gs ++ g :: gs') =
      riseRun height index (riseTick height index (riseRun height index s gs) g) gs' := by
    unfold riseRun
    rw [List.foldl_append]
    rfl
  set s1 := riseRun height index s gs with hs1
  have hGood : s1.done = true → s1.scaleY = 1 ∧ s1.posY = height / 2 :=
    riseRun_good height index s gs (by rw [hs]; intro hcontra; exact absurd hcontra (by simp))
  have hset : (riseTick height index s1 g).scaleY = 1 ∧
      (riseTick height index s1 g).posY = height / 2 ∧
      (riseTick height index s1 g).done = true := by
    by_cases hd : s1.done
    · rw [riseTick_done height index s1 g hd]
      rcases hGood hd with ⟨h1, h2⟩
      exact ⟨h1, h2, hd⟩
    · unfold riseTick
      rw [if_neg hd, if_pos hg]
      exact ⟨rfl, rfl, rfl⟩
  have hfix : riseRun height index (riseTick height index s1 g) gs' =
      riseTick height index s1 g :=
    riseRun_done height index _ gs' hset.2.2
  rw [hsplit, hfix]
  exact ⟨hset.1, hset.2.1, hset.2.2, rfl⟩

/-- C6 (witness): a concrete run where the second tick observes progress 1. -/
theorem rise_terminality_c6_witness :
    (1 : ℚ) ≤ 1 ∧ (RiseState.mk 0 0 false).done = false ∧
    ((riseRun 8 0 (RiseState.mk 0 0 false) ([(1 : ℚ) / 2] ++ 1 :: [2])).scaleY = 1 ∧
      (riseRun 8 0 (RiseState.mk 0 0 false) ([(1 : ℚ) / 2] ++ 1 :: [2])).posY = 8 / 2 ∧
      (riseRun 8 0 (RiseState.mk 0 0 false) ([(1 : ℚ) / 2] ++ 1 :: [2])).done = true) := by
  refine ⟨le_refl 1, rfl, ?_⟩
  have h := rise_terminality_c6 8 0 (RiseState.mk 0 0 false) [(1 : ℚ) / 2] [2] 1
    (le_refl 1) rfl
  exact ⟨h.1, h.2.1, h.2.2.1⟩

/-! ### C1: height scale function -/

theorem starsToHeight_zero : starsToHeight 0 = 8 := by
  simp [starsToHeight]

theorem starsToHeight_seg1 {s : ℕ} (h1 : 1 ≤ s) (h2 : s ≤ 5) :
    starsToHeight s = 8 + (s : ℝ) * 4 := by
  unfold starsToHeight
  rw [if_neg (by omega), if_pos h2]

theorem starsToHeight_seg2 {s : ℕ} (h1 : 6 ≤ s) (h2 : s ≤ 50) :
    starsToHeight s = 28 + ((s : ℝ) - 5) * 2 := by
  unfold starsToHeight
  rw [if_neg (by omega), if_neg (by omega), if_pos h2]

theorem starsToHeight_seg3 {s : ℕ} (h1 : 51 ≤ s) (h2 : s ≤ 500) :
    starsToHeight s = 118 + ((s : ℝ) - 50) * 0.5 := by
  unfold starsToHeight
  rw [if_neg (by omega), if_neg (by omega), if_neg (by omega), if_pos h2]

theorem starsToHeight_seg4 {s : ℕ} (h1 : 501 ≤ s) (h2 : s ≤ 5000) :
    starsToHeight s = 343 + Real.sqrt ((s : ℝ) - 500) * 3 := by
  unfold starsToHeight
  rw [if_neg (by omega), if_neg (by omega), if_neg (by omega), if_neg (by omega),
    if_pos h2]

theorem starsToHeight_seg5 {s : ℕ} (h1 : 5001 ≤ s) :
    starsToHeight s = 450 + Real.logb 10 ((s : ℝ) / 5000) * 100 := by
  unfold starsToHeight
  rw [if_neg (by omega), if_neg (by omega), if_neg (by omega), if_neg (by omega),
    if_neg (by omega)]

/-- Base-10 logarithm of 2 is below 8/25 (because 2^25 < 10^8). -/
theorem logb_ten_two_lt : Real.logb 10 2 < 8 / 25 := by
  have hlog10 : (0 : ℝ) < Real.log 10 := Real.log_pos (by norm_num)
  have h : Real.log ((2 : ℝ) ^ (25 : ℕ)) < Real.log ((10 : ℝ) ^ (8 : ℕ)) :=
    Real.log_lt_log (by positivity) (by norm_num)
  rw [Real.log_pow, Real.log_pow] at h
  rw [Real.logb, div_lt_iff hlog10]
  push_cast at h
  linarith

/-- Base-10 logarithm of 2 exceeds 3/10 (because 10^3 < 2^10). -/
theorem logb_ten_two_gt : 3 / 10 < Real.logb 10 2 := by
  have hlog10 : (0 : ℝ) < Real.log 10 := Real.log_pos (by norm_num)
  have h : Real.log ((10 : ℝ) ^ (3 : ℕ)) < Real.log ((2 : ℝ) ^ (10 : ℕ)) :=
    Real.log_lt_log (by positivity) (by norm_num)
  rw [Real.log_pow, Real.log_pow] at h
  rw [Real.logb, lt_div_iff hlog10]
  push_cast at h
  linarith

/-- Lower bound on the square root appearing at 5000 stars. -/
theorem sqrt_4500_ge : (67 : ℝ) ≤ Real.sqrt 4500 := by
  have h67 : (67 : ℝ) = Real.sqrt ((67 : ℝ) ^ 2) := (Real.sqrt_sq (by norm_num)).symm
  rw [h67]
  exact Real.sqrt_le_sqrt (by norm_num)

/-- C1 (counterexample): the claimed monotonicity fails across the 5000
boundary: 5000 < 10000 but starsToHeight 10000 < starsToHeight 5000 (the
square-root segment ends near 544 while the logarithmic segment restarts
from 450). -/
theorem height_monotonic_c1_counterexample :
    (5000 : ℕ) < 10000 ∧ starsToHeight 10000 < starsToHeight 5000 := by
  refine ⟨by norm_num, ?_⟩
  have h5000 : starsToHeight 5000 = 343 + Real.sqrt 4500 * 3 := by
    rw [starsToHeight_seg4 (by norm_num) (by norm_num)]
    norm_num
  have h10000 : starsToHeight 10000 = 450 + Real.logb 10 2 * 100 := by
    rw [starsToHeight_seg5 (by norm_num)]
    norm_num
  rw [h5000, h10000]
  have h1 := logb_ten_two_lt
  have h2 := sqrt_4500_ge
  nlinarith

/-- One step of monotonicity below the 5000 boundary. -/
theorem starsToHeight_step {s : ℕ} (h : s + 1 ≤ 5000) :
    starsToHeight s ≤ starsToHeight (s + 1) := by
  by_cases h0 : s = 0
  · subst h0
    rw [starsToHeight_zero, starsToHeight_seg1 (by norm_num) (by norm_num)]
    norm_num
  by_cases h5 : s + 1 ≤ 5
  · rw [starsToHeight_seg1 (by omega) (by omega),
      starsToHeight_seg1 (by omega) (by omega)]
    push_cast
    linarith
  by_cases h5' : s ≤ 5
  · have hs : s = 5 := by omega
    subst hs
    rw [starsToHeight_seg1 (by norm_num) (by norm_num),
      starsToHeight_seg2 (by norm_num) (by norm_num)]
    norm_num
  by_cases h50 : s + 1 ≤ 50
  · rw [starsToHeight_seg2 (by omega) (by omega),
      starsToHeight_seg2 (by omega) (by omega)]
    push_cast
    linarith
  by_cases h50' : s ≤ 50
  · have hs : s = 50 := by omega
    subst hs
    rw [starsToHeight_seg2 (by norm_num) (by norm_num),
      starsToHeight_seg3 (by norm_num) (by norm_num)]
    norm_num
  by_cases h500 : s + 1 ≤ 500
  · rw [starsToHeight_seg3 (by omega) (by omega),
      starsToHeight_seg3 (by omega) (by omega)]
    push_cast
    linarith
  by_cases h500' : s ≤ 500
  · have hs : s = 500 := by omega
    subst hs
    rw [starsToHeight_seg3 (by norm_num) (by norm_num),
      starsToHeight_seg4 (by norm_num) (by norm_num)]
    have h1 : (((500 + 1 : ℕ) : ℝ) - 500) = 1 := by norm_num
    rw [h1, Real.sqrt_one]
    norm_num
  · rw [starsToHeight_seg4 (by omega) (by omega),
      starsToHeight_seg4 (by omega) (by omega)]
    have hmono : Real.sqrt ((s : ℝ) - 500) ≤ Real.sqrt (((s + 1 : ℕ) : ℝ) - 500) :=
      Real.sqrt_le_sqrt (by push_cast; linarith)
    linarith

/-- Monotonicity of the height on the star range up to 5000. -/
theorem starsToHeight_mono_le5000 {s1 s2 : ℕ} (h12 : s1 ≤ s2) (h : s2 ≤ 5000) :
    starsToHeight s1 ≤ starsToHeight s2 := by
  induction s2 with
  | zero =>
    have : s1 = 0 := by omega
    subst this
    exact le_refl _
  | succ n ih =>
    rcases Nat.lt_or_ge s1 (n + 1) with hlt | hge
    · exact le_trans (ih (by omega) (by omega)) (starsToHeight_step (by omega))
    · have : s1 = n + 1 := by omega
      subst this
      exact le_refl _

/-- Monotonicity of the height above the 5000 boundary. -/
theorem starsToHeight_mono_gt5000 {s1 s2 : ℕ} (h1 : 5000 < s1) (h12 : s1 ≤ s2) :
    starsToHeight s1 ≤ starsToHeight s2 := by
  rw [starsToHeight_seg5 (by omega), starsToHeight_seg5 (by omega)]
  have hx : (0 : ℝ) < (s1 : ℝ) / 5000 := by positivity
  have hc : (s1 : ℝ) ≤ (s2 : ℝ) := by exact_mod_cast h12
  have hle : (s1 : ℝ) / 5000 ≤ (s2 : ℝ) / 5000 := by linarith
  have := Real.logb_le_logb_of_le (show (1 : ℝ) < 10 by norm_num) hx hle
  linarith

/-- C1 (amended): starsToHeight 0 = 8, and the height is monotonically
non-decreasing within the star range 0..5000 and within the range above
5000; monotonicity fails only across the 5000 boundary, where the value
drops (see the counterexample). -/
theorem height_monotonic_c1_amended :
    starsToHeight 0 = 8 ∧
    (∀ s1 s2 : ℕ, s1 < s2 → s2 ≤ 5000 → starsToHeight s1 ≤ starsToHeight s2) ∧
    (∀ s1 s2 : ℕ, 5000 < s1 → s1 < s2 → starsToHeight s1 ≤ starsToHeight s2) :=
  ⟨starsToHeight_zero,
   fun _ _ h12 h => starsToHeight_mono_le5000 (le_of_lt h12) h,
   fun _ _ h1 h12 => starsToHeight_mono_gt5000 h1 (le_of_lt h12)⟩

/-- C1 (witness): the amended monotonicity evaluated at concrete inputs on
both sides of the boundary. -/
theorem height_monotonic_c1_witness :
    ((3 : ℕ) < 7 ∧ (7 : ℕ) ≤ 5000 ∧ starsToHeight 3 ≤ starsToHeight 7) ∧
    ((5000 : ℕ) < 6000 ∧ (6000 : ℕ) < 7000 ∧ starsToHeight 6000 ≤ starsToHeight 7000) :=
  ⟨⟨by norm_num, by norm_num,
      height_monotonic_c1_amended.2.1 3 7 (by norm_num) (by norm_num)⟩,
   ⟨by norm_num, by norm_num,
      height_monotonic_c1_amended.2.2 6000 7000 (by norm_num) (by norm_num)⟩⟩

/-! ### C2: layout determinism and purity -/

/-- The data a building may legitimately depend on: repository name and
star count. -/
def projRepo (r : Repo) : String × ℕ := (r.repo_name, r.repo_stars)

/-- Everything derived in a building record (name, stars, position,
footprint, height, floors). -/
def projBuilding (b : BuildingData) : String × ℕ × ℚ × ℚ × ℚ × ℚ × ℝ × ℤ :=
  (b.repo.repo_name, b.repo.repo_stars, b.x, b.z, b.width, b.depth, b.height, b.floors)

theorem insertDesc_proj {r1 r2 : Repo} {l1 l2 : List Repo}
    (hr : projRepo r1 = projRepo r2) (hl : l1.map projRepo = l2.map projRepo) :
    (insertDesc r1 l1).map projRepo = (insertDesc r2 l2).map projRepo := by
  have hrs : r1.repo_stars = r2.repo_stars := congrArg Prod.snd hr
  induction l1 generalizing l2 with
  | nil =>
    have : l2 = [] := by
      cases l2 with
      | nil => rfl
      | cons y ys => simp at hl
    subst this
    simp [insertDesc, hr]
  | cons x xs ih =>
    cases l2 with
    | nil => simp at hl
    | cons y ys =>
      simp only [List.map, List.cons.injEq] at hl
      obtain ⟨hxy, hxs⟩ := hl
      have hstars : x.repo_stars = y.repo_stars := congrArg Prod.snd hxy
      unfold insertDesc
      by_cases hcmp : x.repo_stars ≤ r1.repo_stars
      · rw [if_pos hcmp, if_pos (by rw [← hstars, ← hrs]; exact hcmp)]
        simp only [List.map, List.cons.injEq]
        exact ⟨hr, hxy, hxs⟩
      · rw [if_neg hcmp, if_neg (by rw [← hstars, ← hrs]; exact hcmp)]
        simp only [List.map, List.cons.injEq]
        exact ⟨hxy, ih hxs⟩

theorem sortByStarsDesc_proj {l1 l2 : List Repo}
    (hl : l1.map projRepo = l2.map projRepo) :
    (sortByStarsDesc l1).map projRepo = (sortByStarsDesc l2).map projRepo := by
  induction l1 generalizing l2 with
  | nil =>
    cases l2 with
    | nil => rfl
    | cons y ys => simp at hl
  | cons x xs ih =>
    cases l2 with
    | nil => simp at hl
    | cons y ys =>
      simp only [List.map, List.cons.injEq] at hl
      exact insertDesc_proj hl.1 (ih hl.2)

theorem mkBuilding_proj {r1 r2 : Repo} (i : ℕ) (hr : projRepo r1 = projRepo r2) :
    projBuilding (mkBuilding r1 i) = projBuilding (mkBuilding r2 i) := by
  have hn : r1.repo_name = r2.repo_name := congrArg Prod.fst hr
  have hs : r1.repo_stars = r2.repo_stars := congrArg Prod.snd hr
  simp [mkBuilding, projBuilding, hn, hs]

theorem layoutAux_proj : ∀ {l1 l2 : List Repo} (i : ℕ),
    l1.map projRepo = l2.map projRepo →
    (layoutAux l1 i).map projBuilding = (layoutAux l2 i).map projBuilding := by
  intro l1
  induction l1 with
  | nil =>
    intro l2 i hl
    cases l2 with
    | nil => rfl
    | cons y ys => simp at hl
  | cons x xs ih =>
    intro l2 i hl
    cases l2 with
    | nil => simp at hl
    | cons y ys =>
      simp only [List.map, List.cons.injEq] at hl
      simp only [layoutAux, List.map, List.cons.injEq]
      exact ⟨mkBuilding_proj i hl.1, ih (i + 1) hl.2⟩

/-- C2: every derived value of the layout is a pure function of the
repositories' names and star counts alone: two input lists agreeing on
names and stars (in order) produce buildings agreeing on name, stars,
position, footprint, height, and floors, in the same order. Determinism
across calls is the special case of equal inputs. -/
theorem layout_determinism_c2 (L1 L2 : List Repo)
    (h : L1.map projRepo = L2.map projRepo) :
    (layoutCity L1).map projBuilding = (layoutCity L2).map projBuilding :=
  layoutAux_proj 0 (sortByStarsDesc_proj h)

/-- C2 (witness): two concrete lists differing only in the descriptions
produce identical derived buildings. -/
theorem layout_determinism_c2_witness :
    ([Repo.mk "m" 7 "one", Repo.mk "n" 3 "two"].map projRepo =
      [Repo.mk "m" 7 "three", Repo.mk "n" 3 "four"].map projRepo) ∧
    (layoutCity [Repo.mk "m" 7 "one", Repo.mk "n" 3 "two"]).map projBuilding =
      (layoutCity [Repo.mk "m" 7 "three", Repo.mk "n" 3 "four"]).map projBuilding :=
  ⟨by decide, layout_determinism_c2 _ _ (by decide)⟩

/-! ### C7: concrete two-repository scenario -/

def repoA : Repo := { repo_name := "a", repo_stars := 0, repo_description := "" }
def repoB : Repo := { repo_name := "b", repo_stars := 10000, repo_description := "" }

/-- C7: for the list [a with 0 stars, b with 10000 stars] the layout
orders b before a, places b at spiral cell (0,0) hence world (0,0) and a
at cell (1,0) hence world x = 1 * (CELL + STREET); the heights are
starsToHeight 0 = 8 and starsToHeight 10000 = 450 + log10 2 * 100, which
lies strictly between 480 and 482. -/
theorem concrete_scenario_c7 :
    (layoutCity [repoA, repoB]).map (fun b => b.repo.repo_name) = ["b", "a"] ∧
    spiralCoord 0 = (0, 0) ∧ spiralCoord 1 = (1, 0) ∧
    (layoutCity [repoA, repoB]).map (fun b => (b.x, b.z)) =
      [((0 : ℚ), (0 : ℚ)), (1 * (CELL + STREET), 0)] ∧
    starsToHeight 0 = 8 ∧
    starsToHeight 10000 = 450 + Real.logb 10 2 * 100 ∧
    480 < starsToHeight 10000 ∧ starsToHeight 10000 < 482 := by
  have h10000 : starsToHeight 10000 = 450 + Real.logb 10 2 * 100 := by
    rw [starsToHeight_seg5 (by norm_num)]
    norm_num
  have hpos : (layoutCity [repoA, repoB]).map (fun b => (b.x, b.z)) =
      [((0 : ℚ), (0 : ℚ)), (1 * (CELL + STREET), 0)] := by
    have hsort : sortByStarsDesc [repoA, repoB] = [repoB, repoA] := by decide
    rw [layoutCity, hsort]
    simp only [layoutAux, List.map, mkBuilding]
    have h0 : spiralCoord 0 = (0, 0) := by decide
    have h1 : spiralCoord 1 = (1, 0) := by decide
    rw [h0, h1]
    norm_num [CELL, STREET]
  refine ⟨by decide, by decide, by decide, hpos, starsToHeight_zero, h10000, ?_, ?_⟩
  · rw [h10000]
    have := logb_ten_two_gt
    linarith
  · rw [h10000]
    have := logb_ten_two_lt
    linarith

/-! ### C4: spiral coordinates are pairwise distinct -/

/-- Exact characterisation of the loop state after n iterations: the walk
is always inside one of four legs (east along the bottom of a ring, north
along the right edge, west along the top, south along the left edge),
parametrised by the ring number a and the offset k inside the current leg. -/
def SpiralInv (n : ℕ) (s : SpiralState) : Prop :=
  (∃ a k : ℕ, k ≤ 2 * a ∧ n = 2 * a * (2 * a + 1) + k ∧
    s = ⟨-(a : ℤ) + k, -(a : ℤ), 1, 0, 2 * a + 1, k, 4 * a⟩) ∨
  (∃ a k : ℕ, k ≤ 2 * a ∧ n = (2 * a + 1) * (2 * a + 1) + k ∧
    s = ⟨(a : ℤ) + 1, -(a : ℤ) + k, 0, 1, 2 * a + 1, k, 4 * a + 1⟩) ∨
  (∃ a k : ℕ, k ≤ 2 * a + 1 ∧ n = (2 * a + 1) * (2 * a + 2) + k ∧
    s = ⟨(a : ℤ) + 1 - k, (a : ℤ) + 1, -1, 0, 2 * a + 2, k, 4 * a + 2⟩) ∨
  (∃ a k : ℕ, k ≤ 2 * a + 1 ∧ n = (2 * a + 2) * (2 * a + 2) + k ∧
    s = ⟨-(a : ℤ) - 1, (a : ℤ) + 1 - k, 0, -1, 2 * a + 2, k, 4 * a + 3⟩)

theorem spiralInv_iterate (n : ℕ) : SpiralInv n (spiralStep^[n] spiralInit) := by
  induction n with
  | zero =>
    left
    refine ⟨0, 0, le_refl 0, rfl, ?_⟩
    show spiralInit = _
    simp only [spiralInit, SpiralState.mk.injEq]
    norm_num
  | succ n ih =>
    rw [Function.iterate_succ_apply']
    rcases ih with ⟨a, k, hk, hn, hs⟩ | ⟨a, k, hk, hn, hs⟩ | ⟨a, k, hk, hn, hs⟩ |
      ⟨a, k, hk, hn, hs⟩
    · -- east leg along the bottom edge
      rw [hs]
      simp only [spiralStep]
      by_cases hkk : k + 1 = 2 * a + 1
      · rw [if_pos hkk]
        have hk2 : k = 2 * a := by omega
        subst hk2
        rw [if_neg (show ¬((4 * a + 1) % 2 = 0) by omega)]
        right; left
        refine ⟨a, 0, by omega, by rw [hn]; ring, ?_⟩
        simp only [SpiralState.mk.injEq]
        refine ⟨?_, ?_, ?_, ?_, ?_, ?_, ?_⟩ <;> push_cast <;> ring
      · rw [if_neg hkk]
        left
        refine ⟨a, k + 1, by omega, by rw [hn]; ring, ?_⟩
        simp only [SpiralState.mk.injEq]
        refine ⟨?_, ?_, ?_, ?_, ?_, ?_, ?_⟩ <;> push_cast <;> ring
    · -- north leg along the right edge
      rw [hs]
      simp only [spiralStep]
      by_cases hkk : k + 1 = 2 * a + 1
      · rw [if_pos hkk]
        have hk2 : k = 2 * a := by omega
        subst hk2
        rw [if_pos (show (4 * a + 1 + 1) % 2 = 0 by omega)]
        right; right; left
        refine ⟨a, 0, by omega, by rw [hn]; ring, ?_⟩
        simp only [SpiralState.mk.injEq]
        refine ⟨?_, ?_, ?_, ?_, ?_, ?_, ?_⟩ <;> push_cast <;> ring
      · rw [if_neg hkk]
        right; left
        refine ⟨a, k + 1, by omega, by rw [hn]; ring, ?_⟩
        simp only [SpiralState.mk.injEq]
        refine ⟨?_, ?_, ?_, ?_, ?_, ?_, ?_⟩ <;> push_cast <;> ring
    · -- west leg along the top edge
      rw [hs]
      simp only [spiralStep]
      by_cases hkk : k + 1 = 2 * a + 2
      · rw [if_pos hkk]
        have hk2 : k = 2 * a + 1 := by omega
        subst hk2
        rw [if_neg (show ¬((4 * a + 2 + 1) % 2 = 0) by omega)]
        right; right; right
        refine ⟨a, 0, by omega, by rw [hn]; ring, ?_⟩
        simp only [SpiralState.mk.injEq]
        refine ⟨?_, ?_, ?_, ?_, ?_, ?_, ?_⟩ <;> push_cast <;> ring
      · rw [if_neg hkk]
        right; right; left
        refine ⟨a, k + 1, by omega, by rw [hn]; ring, ?_⟩
        simp only [SpiralState.mk.injEq]
        refine ⟨?_, ?_, ?_, ?_, ?_, ?_, ?_⟩ <;> push_cast <;> ring
    · -- south leg along the left edge
      rw [hs]
      simp only [spiralStep]
      by_cases hkk : k + 1 = 2 * a + 2
      · rw [if_pos hkk]
        have hk2 : k = 2 * a + 1 := by omega
        subst hk2
        rw [if_pos (show (4 * a + 3 + 1) % 2 = 0 by omega)]
        left
        refine ⟨a + 1, 0, by omega, by rw [hn]; ring, ?_⟩
        simp only [SpiralState.mk.injEq]
        refine ⟨?_, ?_, ?_, ?_, ?_, ?_, ?_⟩ <;> push_cast <;> ring
      · rw [if_neg hkk]
        right; right; right
        refine ⟨a, k + 1, by omega, by rw [hn]; ring, ?_⟩
        simp only [SpiralState.mk.injEq]
        refine ⟨?_, ?_, ?_, ?_, ?_, ?_, ?_⟩ <;> push_cast <;> ring

/-- The four legs tile the plane disjointly, so the position determines
the iteration count. -/
theorem spiralInv_pos_inj {m n : ℕ} {s t : SpiralState}
    (hm : SpiralInv m s) (hn : SpiralInv n t) (hx : s.x = t.x) (hz : s.z = t.z) :
    m = n := by
  rcases hm with ⟨a1, k1, hk1, hm1, hs1⟩ | ⟨a1, k1, hk1, hm1, hs1⟩ |
    ⟨a1, k1, hk1, hm1, hs1⟩ | ⟨a1, k1, hk1, hm1, hs1⟩ <;>
  rcases hn with ⟨a2, k2, hk2, hn1, hs2⟩ | ⟨a2, k2, hk2, hn1, hs2⟩ |
    ⟨a2, k2, hk2, hn1, hs2⟩ | ⟨a2, k2, hk2, hn1, hs2⟩ <;>
  · subst hs1
    subst hs2
    simp only at hx hz
    first
    | omega
    | (have ha : a1 = a2 := by omega
       have hkk : k1 = k2 := by omega
       subst ha
       subst hkk
       exact hm1.trans hn1.symm)

/-- The source function agrees with the iterated loop at every index. -/
theorem spiralCoord_eq_iterate (n : ℕ) :
    spiralCoord n = ((spiralStep^[n] spiralInit).x, (spiralStep^[n] spiralInit).z) := by
  unfold spiralCoord
  by_cases h : n = 0
  · subst h
    rfl
  · rw [if_neg h]

/-- Injectivity of the spiral cell assignment. -/
theorem spiralCoord_injective : ∀ m n : ℕ, spiralCoord m = spiralCoord n → m = n := by
  intro m n h
  rw [spiralCoord_eq_iterate m, spiralCoord_eq_iterate n] at h
  exact spiralInv_pos_inj (spiralInv_iterate m) (spiralInv_iterate n)
    (congrArg Prod.fst h) (congrArg Prod.snd h)

/-- C4: the spiral starts at the origin and never revisits a cell: the
cells of any two distinct indices are distinct (spiralCoord is a pure
function of the index, so this holds regardless of evaluation order). -/
theorem spiral_bijectivity_c4 :
    spiralCoord 0 = (0, 0) ∧ ∀ m n : ℕ, spiralCoord m = spiralCoord n → m = n :=
  ⟨rfl, spiralCoord_injective⟩

/-- C4 (witness): the injectivity applied at a concrete index, plus a few
concrete spiral cells. -/
theorem spiral_bijectivity_c4_witness :
    spiralCoord 1 = (1, 0) ∧ spiralCoord 2 = (1, 1) ∧ spiralCoord 9 = (2, -1) ∧
    (25 : ℕ) = 25 :=
  ⟨by decide, by decide, by decide, spiral_bijectivity_c4.2 25 25 rfl⟩

/-! ### C3: range of the generator draws -/

/-- The wrapped product of a multiply round is always a 32-bit value. -/
theorem mixRound_lt (u : ℕ) : mixRound u < 4294967296 := by
  unfold mixRound
  have h0 : (0 : ℤ) ≤ fl64 (toI32 (xorShift16 u) * 73244475) % 4294967296 :=
    Int.emod_nonneg _ (by norm_num)
  have h1 : fl64 (toI32 (xorShift16 u) * 73244475) % 4294967296 < 4294967296 :=
    Int.emod_lt_of_pos _ (by norm_num)
  have := (Int.toNat_lt h0).mpr (by exact_mod_cast h1)
  exact this

/-- Every state reached by a draw is a 32-bit value. -/
theorem nextState_lt (u : ℕ) : nextState u < 4294967296 := by
  unfold nextState xorShift16
  have h1 : mixRound (mixRound u) < 2 ^ 32 := mixRound_lt _
  have h2 : mixRound (mixRound u) / 65536 < 2 ^ 32 :=
    lt_of_le_of_lt (Nat.div_le_self _ _) h1
  exact Nat.xor_lt_two_pow h1 h2

set_option maxRecDepth 1000000 in
/-- C3: every draw of the generator lies in the CLOSED interval [0, 1]
(the source divides the 32-bit state by 0xffffffff, not by 2^32); the
upper bound 1 is attained: the generator seeded with the string 102554459
returns exactly 1 on its third draw, because the mixed state there is
0xffffffff. This refutes the claimed strict bound below 1. -/
theorem rng_range_c3 :
    (∀ (seed : List ℕ) (n : ℕ), 0 ≤ rngValue seed n ∧ rngValue seed n ≤ 1) ∧
    rngValue (codeUnits "102554459") 2 = 1 := by
  constructor
  · intro seed n
    unfold rngValue
    constructor
    · positivity
    · rw [div_le_one (by norm_num)]
      have h : nextState^[n + 1] (hashSeed seed) < 4294967296 := by
        rw [Function.iterate_succ_apply']
        exact nextState_lt _
      have h' : nextState^[n + 1] (hashSeed seed) ≤ 4294967295 := by omega
      exact_mod_cast h'
  · unfold rngValue
    rw [show nextState^[2 + 1] (hashSeed (codeUnits "102554459")) = 4294967295 from
      by decide]
    norm_num

/-! ### C8: road network -/

/-- The single segment the loop emits for the east adjacency of a
building, when the east neighbour cell is occupied. -/
def eastSeg (all : List BuildingData) (b : BuildingData) : List Segment :=
  match gridLookup all ((cellOf b).1 + 1, (cellOf b).2) with
  | some nb => [{ x := (b.x + nb.x) / 2, z := b.z,
                  length := CELL + STREET, dir := RoadDir.ew }]
  | none => []

/-- The single segment the loop emits for the north adjacency. -/
def northSeg (all : List BuildingData) (b : BuildingData) : List Segment :=
  match gridLookup all ((cellOf b).1, (cellOf b).2 + 1) with
  | some nb => [{ x := b.x, z := (b.z + nb.z) / 2,
                  length := CELL + STREET, dir := RoadDir.ns }]
  | none => []

/-- Exactly one segment per occupied east adjacency and per occupied
north adjacency of one building. -/
def adjSegs (all : List BuildingData) (b : BuildingData) : List Segment :=
  eastSeg all b ++ northSeg all b

/-- Number of occupied east adjacencies plus occupied north adjacencies
of a cell list. -/
def adjCount (cells : List (ℤ × ℤ)) : ℕ :=
  (cells.filter (fun c => decide ((c.1 + 1, c.2) ∈ cells))).length +
  (cells.filter (fun c => decide ((c.1, c.2 + 1) ∈ cells))).length

theorem gridLookup_eq_some {bs : List BuildingData} {c : ℤ × ℤ} {nb : BuildingData}
    (h : gridLookup bs c = some nb) : nb ∈ bs ∧ cellOf nb = c := by
  unfold gridLookup at h
  have hmem : nb ∈ bs.filter (fun b => decide (cellOf b = c)) :=
    List.mem_of_getLast?_eq_some h
  refine ⟨List.mem_of_mem_filter hmem, ?_⟩
  have := List.of_mem_filter hmem
  simpa using this

theorem gridLookup_isSome_iff {bs : List BuildingData} {c : ℤ × ℤ} :
    (gridLookup bs c).isSome = true ↔ c ∈ bs.map cellOf := by
  unfold gridLookup
  rw [List.getLast?_isSome]
  constructor
  · intro hne
    obtain ⟨b, hb⟩ := List.exists_mem_of_ne_nil _ hne
    obtain ⟨hbmem, hbc⟩ := List.mem_filter.mp hb
    exact List.mem_map.mpr ⟨b, hbmem, by simpa using hbc⟩
  · intro hmem hnil
    obtain ⟨b, hbmem, hbc⟩ := List.mem_map.mp hmem
    have : b ∈ bs.filter (fun b => decide (cellOf b = c)) :=
      List.mem_filter.mpr ⟨hbmem, by simp [hbc]⟩
    rw [hnil] at this
    cases this

/-- The cell recovered from the world coordinates of a building is its
spiral cell. -/
theorem cellOf_mkBuilding (r : Repo) (i : ℕ) : cellOf (mkBuilding r i) = spiralCoord i := by
  have hX : (CELL + STREET : ℚ) ≠ 0 := by norm_num [CELL, STREET]
  unfold cellOf mkBuilding
  simp only
  rw [mul_div_cancel_right₀ _ hX, mul_div_cancel_right₀ _ hX, round_intCast,
    round_intCast]

theorem layoutAux_map_cellOf : ∀ (l : List Repo) (i : ℕ),
    (layoutAux l i).map cellOf = (List.range' i l.length).map spiralCoord := by
  intro l
  induction l with
  | nil => intro i; rfl
  | cons r rs ih =>
    intro i
    show cellOf (mkBuilding r i) :: (layoutAux rs (i + 1)).map cellOf = _
    rw [List.length_cons, List.range'_succ, List.map, cellOf_mkBuilding, ih]

/-- The grid cells of a layout are pairwise distinct (spec invariant: no
two buildings share a cell). -/
theorem layout_cells_nodup (repos : List Repo) :
    ((layoutCity repos).map cellOf).Nodup := by
  unfold layoutCity
  rw [layoutAux_map_cellOf]
  exact List.Nodup.map (fun m n h => spiralCoord_injective m n h)
    (List.nodup_range' _ _)

/-- World coordinates of every layout building are its cell scaled by the
cell pitch. -/
theorem layout_coord_consistent (repos : List Repo) :
    ∀ b ∈ layoutCity repos, b.x = ((cellOf b).1 : ℚ) * (CELL + STREET) ∧
      b.z = ((cellOf b).2 : ℚ) * (CELL + STREET) := by
  suffices h : ∀ (l : List Repo) (i : ℕ), ∀ b ∈ layoutAux l i,
      b.x = ((cellOf b).1 : ℚ) * (CELL + STREET) ∧
      b.z = ((cellOf b).2 : ℚ) * (CELL + STREET) from h _ 0
  intro l
  induction l with
  | nil => intro i b hb; cases hb
  | cons r rs ih =>
    intro i b hb
    rcases List.mem_cons.mp hb with rfl | hb'
    · rw [cellOf_mkBuilding]
      exact ⟨rfl, rfl⟩
    · exact ih _ b hb'

/-- When the buildings occupy pairwise distinct cells, the visited set
never blocks an emission, and the loop emits exactly one segment per
occupied east adjacency and one per occupied north adjacency, in loop
order. -/
theorem roadAux_eq_flatMap (all : List BuildingData) :
    ∀ (l : List BuildingData) (visited : List RoadKey),
      (l.map cellOf).Nodup →
      (∀ key ∈ visited, key.1 ∉ l.map cellOf) →
      roadAux all l visited = l.flatMap (adjSegs all) := by
  intro l
  induction l with
  | nil => intro visited _ _; rfl
  | cons b rest ih =>
    intro visited hnodup hvis
    have hcellb : cellOf b ∈ (b :: rest).map cellOf := by simp
    have hrk : ((cellOf b, ((cellOf b).1 + 1, (cellOf b).2)) : RoadKey) ∉ visited :=
      fun hmem => hvis _ hmem hcellb
    have hfk : ((cellOf b, ((cellOf b).1, (cellOf b).2 + 1)) : RoadKey) ∉ visited :=
      fun hmem => hvis _ hmem hcellb
    have hbrest : cellOf b ∉ rest.map cellOf := by
      have h := hnodup
      simp only [List.map, List.nodup_cons] at h
      exact h.1
    have hnodup' : (rest.map cellOf).Nodup := by
      have h := hnodup
      simp only [List.map, List.nodup_cons] at h
      exact h.2
    have hvis' : ∀ key ∈ visited, key.1 ∉ rest.map cellOf := by
      intro key hk hmem
      exact hvis key hk (by simp [hmem])
    simp only [roadAux]
    rw [if_neg hrk]
    cases hE : gridLookup all ((cellOf b).1 + 1, (cellOf b).2) with
    | some nb =>
      have hfk2 : ((cellOf b, ((cellOf b).1, (cellOf b).2 + 1)) : RoadKey) ∉
          ((cellOf b, ((cellOf b).1 + 1, (cellOf b).2)) : RoadKey) :: visited := by
        intro hmem
        rcases List.mem_cons.mp hmem with heq | hmem'
        · have h1 := congrArg (fun k : RoadKey => k.2.1) heq
          simp at h1
        · exact hfk hmem'
      rw [if_neg hfk2]
      cases hN : gridLookup all ((cellOf b).1, (cellOf b).2 + 1) with
      | some nb2 =>
        have hinv : ∀ key ∈
            (((cellOf b, ((cellOf b).1, (cellOf b).2 + 1)) : RoadKey) ::
              ((cellOf b, ((cellOf b).1 + 1, (cellOf b).2)) : RoadKey) :: visited),
            key.1 ∉ rest.map cellOf := by
          intro key hk
          rcases List.mem_cons.mp hk with rfl | hk'
          · exact hbrest
          rcases List.mem_cons.mp hk' with rfl | hk''
          · exact hbrest
          · exact hvis' key hk''
        rw [ih _ hnodup' hinv]
        simp [adjSegs, eastSeg, northSeg, hE, hN]
      | none =>
        have hinv : ∀ key ∈
            (((cellOf b, ((cellOf b).1 + 1, (cellOf b).2)) : RoadKey) :: visited),
            key.1 ∉ rest.map cellOf := by
          intro key hk
          rcases List.mem_cons.mp hk with rfl | hk'
          · exact hbrest
          · exact hvis' key hk'
        rw [ih _ hnodup' hinv]
        simp [adjSegs, eastSeg, northSeg, hE, hN]
    | none =>
      rw [if_neg hfk]
      cases hN : gridLookup all ((cellOf b).1, (cellOf b).2 + 1) with
      | some nb2 =>
        have hinv : ∀ key ∈
            (((cellOf b, ((cellOf b).1, (cellOf b).2 + 1)) : RoadKey) :: visited),
            key.1 ∉ rest.map cellOf := by
          intro key hk
          rcases List.mem_cons.mp hk with rfl | hk'
          · exact hbrest
          · exact hvis' key hk'
        rw [ih _ hnodup' hinv]
        simp [adjSegs, eastSeg, northSeg, hE, hN]
      | none =>
        rw [ih _ hnodup' hvis']
        simp [adjSegs, eastSeg, northSeg, hE, hN]

/-- Per building, the number of emitted segments is the indicator of the
east neighbour being occupied plus that of the north neighbour. -/
theorem adjSegs_length_eq (bs : List BuildingData) (b : BuildingData) :
    (adjSegs bs b).length =
      (if ((cellOf b).1 + 1, (cellOf b).2) ∈ bs.map cellOf then 1 else 0) +
      (if ((cellOf b).1, (cellOf b).2 + 1) ∈ bs.map cellOf then 1 else 0) := by
  unfold adjSegs
  rw [List.length_append]
  congr 1
  · unfold eastSeg
    cases hE : gridLookup bs ((cellOf b).1 + 1, (cellOf b).2) with
    | some nb =>
      have hmem : ((cellOf b).1 + 1, (cellOf b).2) ∈ bs.map cellOf := by
        rw [← gridLookup_isSome_iff]
        rw [hE]
        rfl
      rw [if_pos hmem]
      rfl
    | none =>
      have hmem : ¬(((cellOf b).1 + 1, (cellOf b).2) ∈ bs.map cellOf) := by
        rw [← gridLookup_isSome_iff, hE]
        simp
      rw [if_neg hmem]
      rfl
  · unfold northSeg
    cases hN : gridLookup bs ((cellOf b).1, (cellOf b).2 + 1) with
    | some nb =>
      have hmem : ((cellOf b).1, (cellOf b).2 + 1) ∈ bs.map cellOf := by
        rw [← gridLookup_isSome_iff, hN]
        rfl
      rw [if_pos hmem]
      rfl
    | none =>
      have hmem : ¬(((cellOf b).1, (cellOf b).2 + 1) ∈ bs.map cellOf) := by
        rw [← gridLookup_isSome_iff, hN]
        simp
      rw [if_neg hmem]
      rfl

theorem flatMap_adjSegs_length (bs : List BuildingData) : ∀ l : List BuildingData,
    (l.flatMap (adjSegs bs)).length =
      ((l.map cellOf).filter
        (fun c => decide ((c.1 + 1, c.2) ∈ bs.map cellOf))).length +
      ((l.map cellOf).filter
        (fun c => decide ((c.1, c.2 + 1) ∈ bs.map cellOf))).length := by
  intro l
  induction l with
  | nil => rfl
  | cons b rest ih =>
    simp only [List.flatMap_cons, List.length_append, List.map, List.filter_cons]
    rw [ih, adjSegs_length_eq]
    by_cases hE : ((cellOf b).1 + 1, (cellOf b).2) ∈ bs.map cellOf <;>
      by_cases hN : ((cellOf b).1, (cellOf b).2 + 1) ∈ bs.map cellOf <;>
      simp [hE, hN] <;> omega

/-- The number of road segments equals the number of occupied east plus
north adjacencies of the occupied cells. -/
theorem roadSegments_length_eq (bs : List BuildingData)
    (hnodup : (bs.map cellOf).Nodup) :
    (roadSegments bs).length = adjCount (bs.map cellOf) := by
  by_cases h2 : bs.length < 2
  · rw [roadSegments, if_pos h2]
    match bs, h2 with
    | [], _ => rfl
    | [b], _ =>
      show 0 = adjCount [cellOf b]
      unfold adjCount
      have h1 : ¬(((cellOf b).1 + 1, (cellOf b).2) = cellOf b) := by
        simp only [Prod.ext_iff]
        intro hcontra
        omega
      have h2' : ¬(((cellOf b).1, (cellOf b).2 + 1) = cellOf b) := by
        simp only [Prod.ext_iff]
        intro hcontra
        omega
      simp [List.filter_cons, h1, h2']
  · rw [roadSegments, if_neg h2,
      roadAux_eq_flatMap bs bs [] hnodup (by intro key hk; cases hk),
      flatMap_adjSegs_length]
    rfl

/-- Every emitted road segment spans the full cell pitch. -/
theorem roadSegments_length_const (bs : List BuildingData)
    (hnodup : (bs.map cellOf).Nodup) :
    ∀ s ∈ roadSegments bs, s.length = CELL + STREET := by
  intro s hs
  unfold roadSegments at hs
  split at hs
  · cases hs
  · rw [roadAux_eq_flatMap bs bs [] hnodup (by intro key hk; cases hk)] at hs
    obtain ⟨b, _, hsb⟩ := List.mem_flatMap.mp hs
    rcases List.mem_append.mp hsb with he | hn
    · unfold eastSeg at he
      revert he
      cases hE : gridLookup bs ((cellOf b).1 + 1, (cellOf b).2) with
      | some nb =>
        intro he
        rcases List.mem_singleton.mp he with rfl
        rfl
      | none => intro he; cases he
    · unfold northSeg at hn
      revert hn
      cases hN : gridLookup bs ((cellOf b).1, (cellOf b).2 + 1) with
      | some nb =>
        intro hn
        rcases List.mem_singleton.mp hn with rfl
        rfl
      | none => intro hn; cases hn

/-- Cell recovered from a segment's midpoint (the east segment of a cell
sits at the half-pitch to its east, the north segment at the half-pitch
to its north, so flooring the scaled midpoint recovers the cell). -/
def segCell (s : Segment) : ℤ × ℤ :=
  (⌊s.x / (CELL + STREET)⌋, ⌊s.z / (CELL + STREET)⌋)

theorem segCell_eastSeg {bs : List BuildingData} {b : BuildingData} {s : Segment}
    (hcons : ∀ b' ∈ bs, b'.x = ((cellOf b').1 : ℚ) * (CELL + STREET) ∧
      b'.z = ((cellOf b').2 : ℚ) * (CELL + STREET))
    (hb : b ∈ bs) (hs : s ∈ eastSeg bs b) :
    segCell s = cellOf b ∧ s.dir = RoadDir.ew := by
  unfold eastSeg at hs
  revert hs
  cases hE : gridLookup bs ((cellOf b).1 + 1, (cellOf b).2) with
  | none => intro hs; cases hs
  | some nb =>
    intro hs
    rcases List.mem_singleton.mp hs with rfl
    obtain ⟨hnbmem, hnbcell⟩ := gridLookup_eq_some hE
    obtain ⟨hbx, hbz⟩ := hcons b hb
    obtain ⟨hnbx, _⟩ := hcons nb hnbmem
    rw [hnbcell] at hnbx
    refine ⟨?_, rfl⟩
    unfold segCell
    simp only
    have hv : (b.x + nb.x) / 2 / (CELL + STREET) = ((cellOf b).1 : ℚ) + 1 / 2 := by
      rw [hbx, hnbx]
      push_cast
      norm_num [CELL, STREET]
      ring
    have hw : b.z / (CELL + STREET) = ((cellOf b).2 : ℚ) := by
      rw [hbz, mul_div_cancel_right₀ _ (show (CELL + STREET : ℚ) ≠ 0 by
        norm_num [CELL, STREET])]
    rw [hv, hw, Int.floor_intCast]
    refine Prod.ext ?_ rfl
    simp only
    refine Int.floor_eq_iff.mpr ⟨by linarith, by linarith⟩

theorem segCell_northSeg {bs : List BuildingData} {b : BuildingData} {s : Segment}
    (hcons : ∀ b' ∈ bs, b'.x = ((cellOf b').1 : ℚ) * (CELL + STREET) ∧
      b'.z = ((cellOf b').2 : ℚ) * (CELL + STREET))
    (hb : b ∈ bs) (hs : s ∈ northSeg bs b) :
    segCell s = cellOf b ∧ s.dir = RoadDir.ns := by
  unfold northSeg at hs
  revert hs
  cases hN : gridLookup bs ((cellOf b).1, (cellOf b).2 + 1) with
  | none => intro hs; cases hs
  | some nb =>
    intro hs
    rcases List.mem_singleton.mp hs with rfl
    obtain ⟨hnbmem, hnbcell⟩ := gridLookup_eq_some hN
    obtain ⟨hbx, hbz⟩ := hcons b hb
    obtain ⟨_, hnbz⟩ := hcons nb hnbmem
    rw [hnbcell] at hnbz
    refine ⟨?_, rfl⟩
    unfold segCell
    simp only
    have hv : (b.z + nb.z) / 2 / (CELL + STREET) = ((cellOf b).2 : ℚ) + 1 / 2 := by
      rw [hbz, hnbz]
      push_cast
      norm_num [CELL, STREET]
      ring
    have hw : b.x / (CELL + STREET) = ((cellOf b).1 : ℚ) := by
      rw [hbx, mul_div_cancel_right₀ _ (show (CELL + STREET : ℚ) ≠ 0 by
        norm_num [CELL, STREET])]
    rw [hv, hw, Int.floor_intCast]
    refine Prod.ext rfl ?_
    simp only
    refine Int.floor_eq_iff.mpr ⟨by linarith, by linarith⟩

theorem segCell_adjSegs {bs : List BuildingData} {b : BuildingData} {s : Segment}
    (hcons : ∀ b' ∈ bs, b'.x = ((cellOf b').1 : ℚ) * (CELL + STREET) ∧
      b'.z = ((cellOf b').2 : ℚ) * (CELL + STREET))
    (hb : b ∈ bs) (hs : s ∈ adjSegs bs b) : segCell s = cellOf b := by
  rcases List.mem_append.mp hs with he | hn
  · exact (segCell_eastSeg hcons hb he).1
  · exact (segCell_northSeg hcons hb hn).1

/-- No two emitted segments are equal: within one building the east and
north segments carry different orientations, and across buildings the
segments recover different cells. -/
theorem roadSegments_nodup (bs : List BuildingData)
    (hnodup : (bs.map cellOf).Nodup)
    (hcons : ∀ b' ∈ bs, b'.x = ((cellOf b').1 : ℚ) * (CELL + STREET) ∧
      b'.z = ((cellOf b').2 : ℚ) * (CELL + STREET)) :
    (roadSegments bs).Nodup := by
  unfold roadSegments
  split
  · exact List.nodup_nil
  · rw [roadAux_eq_flatMap bs bs [] hnodup (by intro key hk; cases hk),
      List.nodup_flatMap]
    constructor
    · intro b _
      unfold adjSegs eastSeg northSeg
      cases hE : gridLookup bs ((cellOf b).1 + 1, (cellOf b).2) <;>
        cases hN : gridLookup bs ((cellOf b).1, (cellOf b).2 + 1) <;>
        simp [Segment.mk.injEq]
    · have hpw : bs.Pairwise (fun b1 b2 => cellOf b1 ≠ cellOf b2) :=
        List.pairwise_map.mp hnodup
      refine hpw.imp_of_mem ?_
      intro b1 b2 h1 h2 hne
      intro a ha1 ha2
      exact hne ((segCell_adjSegs hcons h1 ha1).symm.trans
        (segCell_adjSegs hcons h2 ha2))

/-! ### The concrete 3 x 3 scenario for C8 -/

def nineRepos : List Repo :=
  [{ repo_name := "r0", repo_stars := 9, repo_description := "" },
   { repo_name := "r1", repo_stars := 8, repo_description := "" },
   { repo_name := "r2", repo_stars := 7, repo_description := "" },
   { repo_name := "r3", repo_stars := 6, repo_description := "" },
   { repo_name := "r4", repo_stars := 5, repo_description := "" },
   { repo_name := "r5", repo_stars := 4, repo_description := "" },
   { repo_name := "r6", repo_stars := 3, repo_description := "" },
   { repo_name := "r7", repo_stars := 2, repo_description := "" },
   { repo_name := "r8", repo_stars := 1, repo_description := "" }]

/-- The nine buildings occupy the 3 x 3 block of spiral cells around the
origin. -/
theorem nine_cells : (layoutCity nineRepos).map cellOf =
    [(0, 0), (1, 0), (1, 1), (0, 1), (-1, 1), (-1, 0), (-1, -1), (0, -1), (1, -1)] := by
  unfold layoutCity
  rw [layoutAux_map_cellOf, show sortByStarsDesc nineRepos = nineRepos from by decide]
  decide

theorem nine_roads_length : (roadSegments (layoutCity nineRepos)).length = 12 := by
  rw [roadSegments_length_eq _ (layout_cells_nodup nineRepos), nine_cells]
  decide

theorem nine_roads_nodup : (roadSegments (layoutCity nineRepos)).Nodup :=
  roadSegments_nodup _ (layout_cells_nodup _) (layout_coord_consistent _)

/-- C8: with pairwise distinct cells the road builder emits exactly one
segment per occupied east adjacency and per occupied north adjacency (in
loop order, each adjacency visited once), the segment count equals the
adjacency count, every segment spans the full cell pitch CELL + STREET,
and no segment is duplicated; in particular the 3 x 3 spiral block of
nine repositories yields 12 segments (at least 8), none duplicated. -/
theorem roads_c8 :
    (∀ bs : List BuildingData, 2 ≤ bs.length → (bs.map cellOf).Nodup →
      roadSegments bs = bs.flatMap (adjSegs bs)) ∧
    (∀ bs : List BuildingData, (bs.map cellOf).Nodup →
      (roadSegments bs).length = adjCount (bs.map cellOf)) ∧
    (∀ bs : List BuildingData, (bs.map cellOf).Nodup →
      ∀ s ∈ roadSegments bs, s.length = CELL + STREET) ∧
    (∀ bs : List BuildingData, (bs.map cellOf).Nodup →
      (∀ b ∈ bs, b.x = ((cellOf b).1 : ℚ) * (CELL + STREET) ∧
        b.z = ((cellOf b).2 : ℚ) * (CELL + STREET)) →
      (roadSegments bs).Nodup) ∧
    ((layoutCity nineRepos).map cellOf =
      [(0, 0), (1, 0), (1, 1), (0, 1), (-1, 1), (-1, 0), (-1, -1), (0, -1), (1, -1)] ∧
      (roadSegments (layoutCity nineRepos)).length = 12 ∧
      8 ≤ (roadSegments (layoutCity nineRepos)).length ∧
      (roadSegments (layoutCity nineRepos)).Nodup) := by
  refine ⟨?_, ?_, ?_, ?_, nine_cells, nine_roads_length, ?_, nine_roads_nodup⟩
  · intro bs h2 hnd
    rw [roadSegments, if_neg (by omega)]
    exact roadAux_eq_flatMap bs bs [] hnd (by intro key hk; cases hk)
  · exact roadSegments_length_eq
  · exact roadSegments_length_const
  · exact roadSegments_nodup
  · rw [nine_roads_length]
    omega

/-- C8 (witness): the characterisation applied to the nine-building
layout. -/
theorem roads_c8_witness :
    2 ≤ (layoutCity nineRepos).length ∧
    ((layoutCity nineRepos).map cellOf).Nodup ∧
    roadSegments (layoutCity nineRepos) =
      (layoutCity nineRepos).flatMap (adjSegs (layoutCity nineRepos)) := by
  have hlen : (layoutCity nineRepos).length = 9 := by
    have h := congrArg List.length nine_cells
    simpa using h
  exact ⟨by omega, layout_cells_nodup nineRepos,
    roads_c8.1 _ (by omega) (layout_cells_nodup nineRepos)⟩

end FireCity
